import Mathlib

/-!
Verification of the go-m17-listen client (kc1awv/go-m17-listen).

Shallow embedding of the protocol core:
* the base-40 station-address codec (`encodeCallsign` / `decodeCallsign` in
  `utils.go`, and the older duplicate `EncodeCallsign` in `main.go`);
* the stream-frame parser and voice filter of `handleM17`;
* the receive-loop address filter of `listen` (tui.go client);
* the control-packet dispatch (`handlePacket`) together with the one-shot
  disconnect channel, the NACK teardown and the timed shutdown sequence.

Go strings and byte slices are represented as `List Nat` of byte values;
`uint64` arithmetic is `Nat` with an explicit `% 2^64` at each step where the
source works in `uint64`.
-/

namespace M17

/-- The 64-bit wrap-around modulus for Go's `uint64` arithmetic. -/
def u64 : Nat := 2 ^ 64

/-- The constant `base40Chars` from the source (space, `A`–`Z`, `0`–`9`,
dash, slash, dot) as the list of its 40 ASCII byte values.  Index 0 is the
space. -/
def base40 : List Nat :=
  [32,
   65, 66, 67, 68, 69, 70, 71, 72, 73, 74, 75, 76, 77,
   78, 79, 80, 81, 82, 83, 84, 85, 86, 87, 88, 89, 90,
   48, 49, 50, 51, 52, 53, 54, 55, 56, 57,
   45, 47, 46]

/-- The per-character branch of `encodeCallsign` (utils.go): space maps to 0,
`A`–`Z` to 1..26, `0`–`9` to 27..36, `-` to 37, `/` to 38, `.` to 39, and any
other byte is an invalid-character error (`none`). -/
def charVal (c : Nat) : Option Nat :=
  if c = 32 then some 0
  else if 65 ≤ c ∧ c ≤ 90 then some (c - 65 + 1)
  else if 48 ≤ c ∧ c ≤ 57 then some (c - 48 + 27)
  else if c = 45 then some 37
  else if c = 47 then some 38
  else if c = 46 then some 39
  else none

/-- The per-character branch of the older duplicate `EncodeCallsign`
(main.go): identical to `charVal` except that it has no case for the space
character, which therefore falls through to the invalid-character error. -/
def charValMain (c : Nat) : Option Nat :=
  if 65 ≤ c ∧ c ≤ 90 then some (c - 65 + 1)
  else if 48 ≤ c ∧ c ≤ 57 then some (c - 48 + 27)
  else if c = 45 then some 37
  else if c = 47 then some 38
  else if c = 46 then some 39
  else none

/-- The accumulation loop of `encodeCallsign`: the input is scanned from its
last character to its first, with `address = address*40 + val` in `uint64`
arithmetic at each step, so the first character ends up as the least
significant base-40 digit.  Recursing on the head first reproduces exactly
that: the head is folded in last. -/
def encVal (val : Nat → Option Nat) : List Nat → Option Nat
  | [] => some 0
  | c :: rest =>
    match val c, encVal val rest with
    | some v, some r => some ((r * 40 + v) % u64)
    | _, _ => none

/-- The packing loop of `encodeCallsign`: `result[i] = byte(address & 0xFF);
address >>= 8` for `i = 5` down to `0`, i.e. the six bytes of the address,
most significant first. -/
def encodeBytes (address : Nat) : List Nat :=
  [address / 256 ^ 5 % 256,
   address / 256 ^ 4 % 256,
   address / 256 ^ 3 % 256,
   address / 256 ^ 2 % 256,
   address / 256 % 256,
   address % 256]

/-- `encodeCallsign` (utils.go): base-40 accumulate then pack into 6 bytes;
fails with no output on any invalid character. -/
def encodeCallsign (callsign : List Nat) : Option (List Nat) :=
  match encVal charVal callsign with
  | some address => some (encodeBytes address)
  | none => none

/-- `EncodeCallsign` (main.go): the duplicate encoder whose character switch
has no space case. -/
def EncodeCallsign (callsign : List Nat) : Option (List Nat) :=
  match encVal charValMain callsign with
  | some address => some (encodeBytes address)
  | none => none

/-- The accumulation loop of `decodeCallsign`: `address = address*256 + b`
over the input bytes, in `uint64` arithmetic. -/
def decFold (encoded : List Nat) : Nat :=
  encoded.foldl (fun address b => (address * 256 + b) % u64) 0

/-- The digit-emission loop of `decodeCallsign`: while `address > 0`, emit
`address % 40` and divide by 40. -/
def decDigits : Nat → List Nat
  | 0 => []
  | a + 1 => ((a + 1) % 40) :: decDigits ((a + 1) / 40)
decreasing_by exact Nat.div_lt_self (Nat.succ_pos a) (by norm_num)

/-- The alphabet indices emitted while decoding a byte string. -/
def decIdxs (encoded : List Nat) : List Nat :=
  decDigits (decFold encoded)

/-- `decodeCallsign` (utils.go): fold the bytes into a number, then emit
`base40Chars[address % 40]` per digit loop iteration.  Indexing the constant
string is rendered with `List.getD` (the produced index is proved `< 40`). -/
def decodeCallsign (encoded : List Nat) : List Nat :=
  (decIdxs encoded).map (fun idx => base40.getD idx 32)

/-- Removing the trailing occurrences of `x` from a list (used to state what
the decode loop's early stop at zero does to trailing spaces). -/
def dropTrailing (x : Nat) : List Nat → List Nat
  | [] => []
  | a :: rest =>
    let t := dropTrailing x rest
    if t = [] ∧ a = x then [] else a :: t

/-- Removing the leading occurrences of `x` from a list (the behaviour the
spec's round-trip sentence asserts, for comparison). -/
def dropLeading (x : Nat) : List Nat → List Nat
  | [] => []
  | a :: rest => if a = x then dropLeading x rest else a :: rest

/-! ### Basic facts about the character table -/

theorem decDigits_eq_digits (a : Nat) : decDigits a = Nat.digits 40 a := by
  induction a using Nat.strong_induction_on with
  | _ a ih =>
    match a with
    | 0 => simp [decDigits]
    | n + 1 =>
      rw [decDigits, Nat.digits_def' (by norm_num : (1:Nat) < 40) (Nat.succ_pos n)]
      exact congrArg _ (ih _ (Nat.div_lt_self (Nat.succ_pos n) (by norm_num)))

theorem charVal_isSome_of_mem : ∀ c ∈ base40, (charVal c).isSome = true := by
  decide

theorem charVal_mem_of_isSome {c : Nat} (h : (charVal c).isSome = true) :
    c ∈ base40 := by
  unfold charVal at h
  split_ifs at h with h1 h2 h3 h4 h5 h6
  · subst h1; decide
  · simp only [base40, List.mem_cons, List.mem_singleton]; omega
  · simp only [base40, List.mem_cons, List.mem_singleton]; omega
  · subst h4; decide
  · subst h5; decide
  · subst h6; decide
  · simp at h

theorem charVal_isSome_iff (c : Nat) : (charVal c).isSome = true ↔ c ∈ base40 :=
  ⟨charVal_mem_of_isSome, fun h => charVal_isSome_of_mem c h⟩

theorem charVal_lt : ∀ c ∈ base40, (charVal c).getD 0 < 40 := by decide

theorem charVal_getD_base40 :
    ∀ c ∈ base40, base40.getD ((charVal c).getD 0) 32 = c := by decide

theorem charVal_zero_iff :
    ∀ c ∈ base40, ((charVal c).getD 0 = 0 ↔ c = 32) := by decide

theorem charValMain_isSome_iff (c : Nat) :
    (charValMain c).isSome = true ↔ c ∈ base40 ∧ c ≠ 32 := by
  constructor
  · intro h
    unfold charValMain at h
    split_ifs at h with h1 h2 h3 h4 h5
    · constructor
      · simp only [base40, List.mem_cons, List.mem_singleton]; omega
      · omega
    · constructor
      · simp only [base40, List.mem_cons, List.mem_singleton]; omega
      · omega
    · subst h3; exact ⟨by decide, by decide⟩
    · subst h4; exact ⟨by decide, by decide⟩
    · subst h5; exact ⟨by decide, by decide⟩
    · simp at h
  · intro ⟨hm, hne⟩
    revert hne
    revert hm
    revert c
    decide

/-! ### Round-trip machinery -/

theorem ofDigits_eq_zero_iff (vs : List Nat) :
    Nat.ofDigits 40 vs = 0 ↔ ∀ v ∈ vs, v = 0 := by
  induction vs with
  | nil => simp [Nat.ofDigits_nil]
  | cons v rest ih =>
    rw [Nat.ofDigits_cons]
    constructor
    · intro h
      have hv : v = 0 ∧ Nat.ofDigits 40 rest = 0 := by
        constructor <;> omega
      intro x hx
      rcases List.mem_cons.mp hx with rfl | hx
      · exact hv.1
      · exact ih.mp hv.2 x hx
    · intro h
      have hv : v = 0 := h v (List.mem_cons_self v rest)
      have hr : Nat.ofDigits 40 rest = 0 :=
        ih.mpr fun x hx => h x (List.mem_cons_of_mem v hx)
      omega

theorem dropTrailing_eq_nil_iff (x : Nat) (vs : List Nat) :
    dropTrailing x vs = [] ↔ ∀ v ∈ vs, v = x := by
  induction vs with
  | nil => simp [dropTrailing]
  | cons a rest ih =>
    simp only [dropTrailing]
    by_cases h : dropTrailing x rest = [] ∧ a = x
    · rw [if_pos h]
      constructor
      · intro _ y hy
        rcases List.mem_cons.mp hy with rfl | hy
        · exact h.2
        · exact (ih.mp h.1) y hy
      · intro _; rfl
    · rw [if_neg h]
      constructor
      · intro hc; exact absurd hc (List.cons_ne_nil _ _)
      · intro hall
        exact absurd ⟨ih.mpr fun y hy => hall y (List.mem_cons_of_mem a hy),
          hall a (List.mem_cons_self a rest)⟩ h

theorem digits_ofDigits40 (vs : List Nat) (h : ∀ v ∈ vs, v < 40) :
    Nat.digits 40 (Nat.ofDigits 40 vs) = dropTrailing 0 vs := by
  induction vs with
  | nil => simp [Nat.ofDigits_nil, dropTrailing]
  | cons v rest ih =>
    have hv : v < 40 := h v (List.mem_cons_self v rest)
    have hrest : ∀ x ∈ rest, x < 40 := fun x hx => h x (List.mem_cons_of_mem v hx)
    rw [Nat.ofDigits_cons, dropTrailing]
    by_cases hz : dropTrailing 0 rest = [] ∧ v = 0
    · have hr0 : Nat.ofDigits 40 rest = 0 :=
        (ofDigits_eq_zero_iff rest).mpr ((dropTrailing_eq_nil_iff 0 rest).mp hz.1)
      simp only [hz, and_self, if_true, if_pos]
      rw [hr0]
      simp
    · have hpos : 0 < v + 40 * Nat.ofDigits 40 rest := by
        rcases Nat.eq_zero_or_pos (v + 40 * Nat.ofDigits 40 rest) with h0 | h0
        · have hv0 : v = 0 := by omega
          have hr0 : Nat.ofDigits 40 rest = 0 := by omega
          exact absurd ⟨(dropTrailing_eq_nil_iff 0 rest).mpr
            ((ofDigits_eq_zero_iff rest).mp hr0), hv0⟩ hz
        · exact h0
      rw [Nat.digits_def' (by norm_num : (1:Nat) < 40) hpos]
      have hmod : (v + 40 * Nat.ofDigits 40 rest) % 40 = v := by omega
      have hdiv : (v + 40 * Nat.ofDigits 40 rest) / 40 = Nat.ofDigits 40 rest := by
        omega
      rw [hmod, hdiv, ih hrest]
      simp only [hz, if_neg, if_false]

theorem ofDigits_lt_pow (vs : List Nat) (h : ∀ v ∈ vs, v < 40) :
    Nat.ofDigits 40 vs < 40 ^ vs.length := by
  induction vs with
  | nil => simp [Nat.ofDigits_nil]
  | cons v rest ih =>
    have hv : v < 40 := h v (List.mem_cons_self v rest)
    have hr : Nat.ofDigits 40 rest < 40 ^ rest.length :=
      ih fun x hx => h x (List.mem_cons_of_mem v hx)
    rw [Nat.ofDigits_cons, List.length_cons, pow_succ]
    have : 40 * Nat.ofDigits 40 rest + 40 ≤ 40 * 40 ^ rest.length := by
      have := Nat.mul_le_mul_left 40 (Nat.succ_le_of_lt hr)
      omega
    omega

/-- The digit value actually taken for a valid character. -/
def valD (c : Nat) : Nat := (charVal c).getD 0

theorem encVal_eq (s : List Nat) (h : ∀ c ∈ s, c ∈ base40)
    (hlt : Nat.ofDigits 40 (s.map valD) < u64) :
    encVal charVal s = some (Nat.ofDigits 40 (s.map valD)) := by
  induction s with
  | nil => simp [encVal, Nat.ofDigits_nil]
  | cons c rest ih =>
    have hc : c ∈ base40 := h c (List.mem_cons_self c rest)
    have hrest : ∀ x ∈ rest, x ∈ base40 := fun x hx => h x (List.mem_cons_of_mem c hx)
    have hv : charVal c = some (valD c) := by
      have := charVal_isSome_of_mem c hc
      unfold valD
      cases hcv : charVal c with
      | none => rw [hcv] at this; simp at this
      | some v => simp [hcv]
    have hcons : Nat.ofDigits 40 ((c :: rest).map valD)
        = valD c + 40 * Nat.ofDigits 40 (rest.map valD) := by
      simp [Nat.ofDigits_cons]
    have hrlt : Nat.ofDigits 40 (rest.map valD) < u64 := by
      rw [hcons] at hlt; omega
    have hlt' : valD c + 40 * Nat.ofDigits 40 (List.map valD rest) < u64 := by
      rw [hcons] at hlt; exact hlt
    have hmod : (Nat.ofDigits 40 (List.map valD rest) * 40 + valD c) % u64
        = valD c + 40 * Nat.ofDigits 40 (List.map valD rest) := by
      rw [Nat.mod_eq_of_lt (by omega)]
      ring
    rw [encVal, hv, ih hrest hrlt]
    show some ((Nat.ofDigits 40 (List.map valD rest) * 40 + valD c) % u64)
        = some (Nat.ofDigits 40 (List.map valD (c :: rest)))
    rw [hmod, hcons]

theorem decFold_encodeBytes (a : Nat) (ha : a < 2 ^ 48) :
    decFold (encodeBytes a) = a := by
  simp only [decFold, encodeBytes, List.foldl, u64]
  norm_num
  omega

theorem getD_valD (c : Nat) (hc : c ∈ base40) : base40.getD (valD c) 32 = c :=
  charVal_getD_base40 c hc

theorem valD_zero_iff (c : Nat) (hc : c ∈ base40) : valD c = 0 ↔ c = 32 :=
  charVal_zero_iff c hc

theorem map_getD_dropTrailing (s : List Nat) (h : ∀ c ∈ s, c ∈ base40) :
    (dropTrailing 0 (s.map valD)).map (fun idx => base40.getD idx 32)
      = dropTrailing 32 s := by
  induction s with
  | nil => simp [dropTrailing]
  | cons c rest ih =>
    have hc : c ∈ base40 := h c (List.mem_cons_self c rest)
    have hrest : ∀ x ∈ rest, x ∈ base40 := fun x hx => h x (List.mem_cons_of_mem c hx)
    have hihm := ih hrest
    simp only [List.map_cons, dropTrailing]
    by_cases hz : dropTrailing 0 (List.map valD rest) = [] ∧ valD c = 0
    · have h1 : dropTrailing 32 rest = [] := by rw [← hihm, hz.1]; rfl
      have h2 : c = 32 := (valD_zero_iff c hc).mp hz.2
      rw [if_pos hz, if_pos ⟨h1, h2⟩]
      rfl
    · have hcases : ¬(dropTrailing 32 rest = [] ∧ c = 32) := by
        intro hcon
        apply hz
        refine ⟨?_, (valD_zero_iff c hc).mpr hcon.2⟩
        rw [← hihm] at hcon
        exact List.map_eq_nil_iff.mp hcon.1
      rw [if_neg hz, if_neg hcases]
      simp only [List.map_cons]
      rw [hihm, getD_valD c hc]

/-- The full encode/decode round trip for valid addresses of length at most
nine: encoding succeeds and decoding the six bytes reproduces the input with
its trailing spaces removed. -/
theorem encode_decode (s : List Nat) (hlen : s.length ≤ 9)
    (h : ∀ c ∈ s, c ∈ base40) :
    encodeCallsign s = some (encodeBytes (Nat.ofDigits 40 (s.map valD))) ∧
    decodeCallsign (encodeBytes (Nat.ofDigits 40 (s.map valD))) = dropTrailing 32 s := by
  have hvs : ∀ v ∈ s.map valD, v < 40 := by
    intro v hv
    obtain ⟨c, hc, rfl⟩ := List.mem_map.mp hv
    exact charVal_lt c (h c hc)
  have hbound : Nat.ofDigits 40 (s.map valD) < 40 ^ 9 := by
    calc Nat.ofDigits 40 (s.map valD) < 40 ^ (s.map valD).length :=
          ofDigits_lt_pow _ hvs
    _ ≤ 40 ^ 9 := Nat.pow_le_pow_right (by norm_num) (by simpa using hlen)
  have h48 : Nat.ofDigits 40 (s.map valD) < 2 ^ 48 :=
    lt_trans hbound (by norm_num)
  have h64 : Nat.ofDigits 40 (s.map valD) < u64 :=
    lt_trans h48 (by norm_num [u64])
  constructor
  · rw [encodeCallsign, encVal_eq s h h64]
  · rw [decodeCallsign, decIdxs, decFold_encodeBytes _ h48, decDigits_eq_digits,
        digits_ofDigits40 _ hvs, map_getD_dropTrailing s h]

/-! ### Error behaviour of the encoders -/

theorem encVal_eq_none_iff (val : Nat → Option Nat) (s : List Nat) :
    encVal val s = none ↔ ∃ c ∈ s, val c = none := by
  induction s with
  | nil => simp [encVal]
  | cons c rest ih =>
    cases hv : val c with
    | none =>
      simp only [encVal, hv]
      constructor
      · intro _
        exact ⟨c, List.mem_cons_self c rest, hv⟩
      · intro _
        trivial
    | some v =>
      cases hr : encVal val rest with
      | none =>
        simp only [encVal, hv, hr]
        constructor
        · intro _
          obtain ⟨x, hx, hxn⟩ := ih.mp hr
          exact ⟨x, List.mem_cons_of_mem c hx, hxn⟩
        · intro _
          trivial
      | some r =>
        simp only [encVal, hv, hr]
        constructor
        · intro h
          exact absurd h (by simp)
        · rintro ⟨x, hx, hxn⟩
          rcases List.mem_cons.mp hx with rfl | hx
          · rw [hv] at hxn
            exact absurd hxn (by simp)
          · have hn : encVal val rest = none := ih.mpr ⟨x, hx, hxn⟩
            rw [hr] at hn
            exact absurd hn (by simp)

theorem encodeCallsign_eq_none_iff (s : List Nat) :
    encodeCallsign s = none ↔ encVal charVal s = none := by
  unfold encodeCallsign
  cases h : encVal charVal s <;> simp

theorem EncodeCallsign_eq_none_iff (s : List Nat) :
    EncodeCallsign s = none ↔ encVal charValMain s = none := by
  unfold EncodeCallsign
  cases h : encVal charValMain s <;> simp

theorem charVal_eq_none_iff (c : Nat) : charVal c = none ↔ c ∉ base40 := by
  rw [← charVal_isSome_iff]
  cases charVal c <;> simp

theorem charValMain_eq_none_iff (c : Nat) :
    charValMain c = none ↔ (c ∉ base40 ∨ c = 32) := by
  have h := charValMain_isSome_iff c
  constructor
  · intro hn
    by_contra hcon
    push_neg at hcon
    have hs : (charValMain c).isSome = true := h.mpr ⟨hcon.1, hcon.2⟩
    rw [hn] at hs
    simp at hs
  · intro hor
    cases hs : charValMain c with
    | none => rfl
    | some v =>
      have hsome : (charValMain c).isSome = true := by rw [hs]; rfl
      have hc := h.mp hsome
      rcases hor with hnm | h32
      · exact absurd hc.1 hnm
      · exact absurd h32 hc.2

/-! ### Concrete decode evaluations shared by several results -/

theorem decode_bytes_one : decodeCallsign [0, 0, 0, 0, 0, 1] = [65] := by
  rw [decodeCallsign, decIdxs]
  have h1 : decFold [0, 0, 0, 0, 0, 1] = 1 := by norm_num [decFold, u64]
  rw [h1, decDigits_eq_digits, Nat.digits_of_lt 40 1 (by norm_num) (by norm_num)]
  decide

/-- C1: for every string of length at most 9 over the 40-symbol alphabet,
`decodeCallsign (encodeCallsign s)` succeeds and equals `s` with its trailing
space characters removed (interior and leading spaces are reproduced); in
particular encoding `"A"` gives bytes `[0,0,0,0,0,1]` and decoding those
bytes gives `"A"` back. -/
theorem c1_roundtrip_drops_trailing_spaces :
    (∀ s : List Nat, s.length ≤ 9 → (∀ c ∈ s, c ∈ base40) →
      ∃ bs, encodeCallsign s = some bs ∧ decodeCallsign bs = dropTrailing 32 s) ∧
    encodeCallsign [65] = some [0, 0, 0, 0, 0, 1] ∧
    decodeCallsign [0, 0, 0, 0, 0, 1] = [65] := by
  refine ⟨?_, by decide, decode_bytes_one⟩
  intro s hlen h
  obtain ⟨he, hd⟩ := encode_decode s hlen h
  exact ⟨_, he, hd⟩

/-- Witness for C1 at the concrete input `"AB "` (bytes `[65, 66, 32]`):
the hypotheses hold and the round trip drops the trailing space. -/
theorem c1_roundtrip_drops_trailing_spaces_witness :
    ([65, 66, 32] : List Nat).length ≤ 9 ∧
    (∀ c ∈ ([65, 66, 32] : List Nat), c ∈ base40) ∧
    ∃ bs, encodeCallsign [65, 66, 32] = some bs ∧
      decodeCallsign bs = dropTrailing 32 [65, 66, 32] :=
  ⟨by decide, by decide,
    c1_roundtrip_drops_trailing_spaces.1 [65, 66, 32] (by decide) (by decide)⟩

/-- C6 counterexample: the round trip does not strip leading spaces — it
strips trailing ones.  At `"A "` (bytes `[65, 32]`) the decode of the encode
is `"A"`, while the input with its leading spaces stripped is `"A "` itself,
and the two differ. -/
theorem c6_counterexample :
    encodeCallsign [65, 32] = some [0, 0, 0, 0, 0, 1] ∧
    decodeCallsign [0, 0, 0, 0, 0, 1] = [65] ∧
    dropLeading 32 [65, 32] = [65, 32] ∧
    ([65] : List Nat) ≠ [65, 32] :=
  ⟨by decide, decode_bytes_one, by decide, by decide⟩

/-- C6 amended: for all strings over the 40-symbol alphabet of length at
most 9, `decode (encode s)` reproduces `s` with its TRAILING (not leading)
space characters stripped. -/
theorem c6_roundtrip_amended :
    ∀ s : List Nat, s.length ≤ 9 → (∀ c ∈ s, c ∈ base40) →
      ∃ bs, encodeCallsign s = some bs ∧ decodeCallsign bs = dropTrailing 32 s := by
  intro s hlen h
  obtain ⟨he, hd⟩ := encode_decode s hlen h
  exact ⟨_, he, hd⟩

/-- Witness for the amended C6 at `" A"` (bytes `[32, 65]`): the leading
space is preserved by the round trip. -/
theorem c6_roundtrip_amended_witness :
    ([32, 65] : List Nat).length ≤ 9 ∧
    (∀ c ∈ ([32, 65] : List Nat), c ∈ base40) ∧
    ∃ bs, encodeCallsign [32, 65] = some bs ∧
      decodeCallsign bs = dropTrailing 32 [32, 65] :=
  ⟨by decide, by decide, c6_roundtrip_amended [32, 65] (by decide) (by decide)⟩

/-- C3 counterexample: the duplicate encoder `EncodeCallsign` (main.go)
fails on the single-space input even though the space is one of the 40
alphabet symbols, so "fails iff some character is outside the alphabet" is
false for it. -/
theorem c3_counterexample :
    EncodeCallsign [32] = none ∧ (32 : Nat) ∈ base40 :=
  ⟨by decide, by decide⟩

/-- C3 amended: `encodeCallsign` (utils.go) fails exactly when the input
contains a character outside the 40-symbol alphabet, and maps the space to
digit value 0; the duplicate `EncodeCallsign` (main.go) additionally treats
the space itself as invalid, failing exactly when some character is outside
the alphabet or is a space.  Failure yields `none`: no output bytes. -/
theorem c3_invalid_character_iff :
    (∀ s : List Nat, encodeCallsign s = none ↔ ∃ c ∈ s, c ∉ base40) ∧
    charVal 32 = some 0 ∧
    (∀ s : List Nat, EncodeCallsign s = none ↔ ∃ c ∈ s, (c ∉ base40 ∨ c = 32)) := by
  refine ⟨?_, by decide, ?_⟩
  · intro s
    simp only [encodeCallsign_eq_none_iff, encVal_eq_none_iff, charVal_eq_none_iff]
  · intro s
    simp only [EncodeCallsign_eq_none_iff, encVal_eq_none_iff, charValMain_eq_none_iff]

/-- Witness for C3's amended statement at the concrete inputs `"AB#"`
(bytes `[65, 66, 35]`, which fails, `35` being outside the alphabet) and
`"AB"` (which succeeds). -/
theorem c3_invalid_character_iff_witness :
    (encodeCallsign [65, 66, 35] = none ↔ ∃ c ∈ ([65, 66, 35] : List Nat), c ∉ base40) ∧
    (EncodeCallsign [32] = none ↔ ∃ c ∈ ([32] : List Nat), (c ∉ base40 ∨ c = 32)) :=
  ⟨c3_invalid_character_iff.1 [65, 66, 35], c3_invalid_character_iff.2.2 [32]⟩

/-- C5: decoding a 6-byte wire address is total: every emitted alphabet
index is strictly less than 40 (hence a valid index into the 40-character
alphabet), and the all-zero input decodes to the empty string. -/
theorem c5_decode_total :
    (∀ bs : List Nat, bs.length = 6 → (∀ b ∈ bs, b < 256) →
      ∀ i ∈ decIdxs bs, i < 40) ∧
    decodeCallsign [0, 0, 0, 0, 0, 0] = [] := by
  constructor
  · intro bs _ _ i hi
    rw [decIdxs, decDigits_eq_digits] at hi
    exact Nat.digits_lt_base (by norm_num) hi
  · rw [decodeCallsign, decIdxs]
    have h0 : decFold [0, 0, 0, 0, 0, 0] = 0 := by norm_num [decFold, u64]
    rw [h0, decDigits_eq_digits]
    simp

/-- Witness for C5 at the all-ones 6-byte input. -/
theorem c5_decode_total_witness :
    ([255, 255, 255, 255, 255, 255] : List Nat).length = 6 ∧
    ∀ i ∈ decIdxs [255, 255, 255, 255, 255, 255], i < 40 :=
  ⟨by decide, c5_decode_total.1 [255, 255, 255, 255, 255, 255] (by decide) (by decide)⟩

/-! ### Stream-frame parsing and the voice filter of `handleM17` -/

/-- `binary.BigEndian.Uint16` over two bytes. -/
def be16 (hi lo : Nat) : Nat := hi * 256 + lo

/-- The fields extracted from a stream-tagged datagram by `handleM17`:
stream identifier, 28-byte LICH, frame number and 16-byte payload (the two
reserved bytes are ignored by the source). -/
structure StreamFrame where
  streamID : Nat
  lich : List Nat
  frameNumber : Nat
  payload : List Nat

/-- Field extraction of `handleM17`: a packet shorter than 54 bytes is a
malformed-frame error (`none`) before any field is read; otherwise the
fields are sliced exactly as in the source (`packet[4:6]`, `packet[6:34]`,
`packet[34:36]`, `packet[36:52]`). -/
def parseM17 (packet : List Nat) : Option StreamFrame :=
  if packet.length < 54 then none
  else some
    { streamID := be16 (packet.getD 4 0) (packet.getD 5 0)
      lich := (packet.drop 6).take 28
      frameNumber := be16 (packet.getD 34 0) (packet.getD 35 0)
      payload := (packet.drop 36).take 16 }

/-- `typ := binary.BigEndian.Uint16(lich[12:14])`. -/
def lichTyp (f : StreamFrame) : Nat := be16 (f.lich.getD 12 0) (f.lich.getD 13 0)

/-- `typ & 0x0001`. -/
def packetStreamIndicator (typ : Nat) : Nat := typ % 2

/-- `(typ >> 1) & 0x0003`. -/
def dataTypeIndicator (typ : Nat) : Nat := typ / 2 % 4

/-- `(typ >> 3) & 0x0003`. -/
def encryptionType (typ : Nat) : Nat := typ / 8 % 4

/-- `(typ >> 5) & 0x0003`. -/
def encryptionSubtype (typ : Nat) : Nat := typ / 32 % 4

/-- `(typ >> 7) & 0x000F`. -/
def channelAccessNumber (typ : Nat) : Nat := typ / 128 % 16

/-- The sequence of 8-byte sub-frames `handleM17` passes to the vocoder
decode, in call order, given which sub-frames the external vocoder accepts
(`decOk`): nothing on a parse failure or a filtered frame; the first half,
then — only if its decode succeeded — the second half. -/
def m17DecodeCalls (decOk : List Nat → Bool) (packet : List Nat) : List (List Nat) :=
  match parseM17 packet with
  | none => []
  | some f =>
    if packetStreamIndicator (lichTyp f) = 0 ∨ encryptionType (lichTyp f) ≠ 0 then []
    else if dataTypeIndicator (lichTyp f) ≠ 2 ∧ dataTypeIndicator (lichTyp f) ≠ 3 then []
    else if f.payload.length ≠ 16 then []
    else if decOk (f.payload.take 8) then [f.payload.take 8, f.payload.drop 8]
    else [f.payload.take 8]

theorem getD_take_of_lt (l : List Nat) (m k d : Nat) (hk : k < m) :
    (l.take m).getD k d = l.getD k d := by
  rw [List.getD_eq_getElem?_getD, List.getD_eq_getElem?_getD, List.getElem?_take,
    if_pos hk]

theorem getD_drop (l : List Nat) (n k d : Nat) :
    (l.drop n).getD k d = l.getD (n + k) d := by
  rw [List.getD_eq_getElem?_getD, List.getD_eq_getElem?_getD, List.getElem?_drop]

theorem m17DecodeCalls_spec (decOk : List Nat → Bool) (p : List Nat)
    (hlen : 54 ≤ p.length) (hdec : ∀ b, decOk b = true) :
    m17DecodeCalls decOk p =
      if packetStreamIndicator (be16 (p.getD 18 0) (p.getD 19 0)) = 0 ∨
          encryptionType (be16 (p.getD 18 0) (p.getD 19 0)) ≠ 0 then []
      else if dataTypeIndicator (be16 (p.getD 18 0) (p.getD 19 0)) ≠ 2 ∧
          dataTypeIndicator (be16 (p.getD 18 0) (p.getD 19 0)) ≠ 3 then []
      else [((p.drop 36).take 16).take 8, ((p.drop 36).take 16).drop 8] := by
  have hparse : parseM17 p = some
      { streamID := be16 (p.getD 4 0) (p.getD 5 0)
        lich := (p.drop 6).take 28
        frameNumber := be16 (p.getD 34 0) (p.getD 35 0)
        payload := (p.drop 36).take 16 } := by
    rw [parseM17, if_neg (by omega)]
  have htyp : lichTyp
      { streamID := be16 (p.getD 4 0) (p.getD 5 0)
        lich := (p.drop 6).take 28
        frameNumber := be16 (p.getD 34 0) (p.getD 35 0)
        payload := (p.drop 36).take 16 }
      = be16 (p.getD 18 0) (p.getD 19 0) := by
    show be16 (((p.drop 6).take 28).getD 12 0) (((p.drop 6).take 28).getD 13 0)
        = be16 (p.getD 18 0) (p.getD 19 0)
    rw [getD_take_of_lt _ _ _ _ (by norm_num), getD_take_of_lt _ _ _ _ (by norm_num),
      getD_drop, getD_drop]
  have hplen : ((p.drop 36).take 16).length = 16 := by
    rw [List.length_take, List.length_drop]
    omega
  rw [m17DecodeCalls, hparse]
  simp only [htyp, hplen, hdec]
  split_ifs <;> simp_all

/-- C2: for a stream datagram of at least 54 bytes and a vocoder that
accepts every sub-frame, the decode is invoked exactly twice — on the first
8-byte payload half, then the second — if and only if the stream-indicator
bit of the type field is 1, the encryption type is 0 and the data-type
indicator is 2 (voice) or 3 (voice+data); otherwise no decode happens. -/
theorem c2_voice_filter :
    ∀ (decOk : List Nat → Bool) (p : List Nat), 54 ≤ p.length →
      (∀ b, decOk b = true) →
      (m17DecodeCalls decOk p
          = [((p.drop 36).take 16).take 8, ((p.drop 36).take 16).drop 8] ↔
        packetStreamIndicator (be16 (p.getD 18 0) (p.getD 19 0)) = 1 ∧
        encryptionType (be16 (p.getD 18 0) (p.getD 19 0)) = 0 ∧
        (dataTypeIndicator (be16 (p.getD 18 0) (p.getD 19 0)) = 2 ∨
         dataTypeIndicator (be16 (p.getD 18 0) (p.getD 19 0)) = 3)) ∧
      (¬(packetStreamIndicator (be16 (p.getD 18 0) (p.getD 19 0)) = 1 ∧
          encryptionType (be16 (p.getD 18 0) (p.getD 19 0)) = 0 ∧
          (dataTypeIndicator (be16 (p.getD 18 0) (p.getD 19 0)) = 2 ∨
           dataTypeIndicator (be16 (p.getD 18 0) (p.getD 19 0)) = 3)) →
        m17DecodeCalls decOk p = []) := by
  intro decOk p hlen hdec
  have hspec := m17DecodeCalls_spec decOk p hlen hdec
  have hstream : packetStreamIndicator (be16 (p.getD 18 0) (p.getD 19 0)) < 2 :=
    Nat.mod_lt _ (by norm_num)
  constructor
  · rw [hspec]
    split_ifs with h1 h2
    · constructor
      · intro hcon
        exact absurd hcon (by simp)
      · intro hcond
        exact absurd hcond (by omega)
    · constructor
      · intro hcon
        exact absurd hcon (by simp)
      · intro hcond
        exact absurd hcond (by omega)
    · constructor
      · intro _
        omega
      · intro _
        rfl
  · intro hcond
    rw [hspec]
    split_ifs with h1 h2
    · rfl
    · rfl
    · exact absurd (by omega : packetStreamIndicator (be16 (p.getD 18 0) (p.getD 19 0)) = 1 ∧
        encryptionType (be16 (p.getD 18 0) (p.getD 19 0)) = 0 ∧
        (dataTypeIndicator (be16 (p.getD 18 0) (p.getD 19 0)) = 2 ∨
         dataTypeIndicator (be16 (p.getD 18 0) (p.getD 19 0)) = 3)) hcond

/-- Witness for C2 at a concrete 54-byte packet whose type field is 0x0005
(stream-indicator 1, data-type 2, encryption 0) and a vocoder accepting
every sub-frame: the decode-call list is exactly the two payload halves. -/
theorem c2_voice_filter_witness :
    54 ≤ (List.replicate 19 0 ++ 5 :: List.replicate 34 0 : List Nat).length ∧
    (m17DecodeCalls (fun _ => true) (List.replicate 19 0 ++ 5 :: List.replicate 34 0)
        = [(((List.replicate 19 0 ++ 5 :: List.replicate 34 0 : List Nat).drop 36).take 16).take 8,
           (((List.replicate 19 0 ++ 5 :: List.replicate 34 0 : List Nat).drop 36).take 16).drop 8] ↔
      packetStreamIndicator (be16 ((List.replicate 19 0 ++ 5 :: List.replicate 34 0 : List Nat).getD 18 0)
          ((List.replicate 19 0 ++ 5 :: List.replicate 34 0 : List Nat).getD 19 0)) = 1 ∧
      encryptionType (be16 ((List.replicate 19 0 ++ 5 :: List.replicate 34 0 : List Nat).getD 18 0)
          ((List.replicate 19 0 ++ 5 :: List.replicate 34 0 : List Nat).getD 19 0)) = 0 ∧
      (dataTypeIndicator (be16 ((List.replicate 19 0 ++ 5 :: List.replicate 34 0 : List Nat).getD 18 0)
          ((List.replicate 19 0 ++ 5 :: List.replicate 34 0 : List Nat).getD 19 0)) = 2 ∨
       dataTypeIndicator (be16 ((List.replicate 19 0 ++ 5 :: List.replicate 34 0 : List Nat).getD 18 0)
          ((List.replicate 19 0 ++ 5 :: List.replicate 34 0 : List Nat).getD 19 0)) = 3)) :=
  ⟨by decide,
    (c2_voice_filter (fun _ => true) (List.replicate 19 0 ++ 5 :: List.replicate 34 0)
      (by decide) (fun _ => rfl)).1⟩

/-- C4: a stream-tagged datagram shorter than 54 bytes is rejected as
malformed with no fields extracted, and 54 bytes is the minimum accepted
for parsing into a `StreamFrame`; in particular a 53-byte datagram is
rejected and a 54-byte one parses. -/
theorem c4_min_frame_length :
    (∀ p : List Nat, p.length < 54 → parseM17 p = none) ∧
    (∀ p : List Nat, 54 ≤ p.length → ∃ f, parseM17 p = some f) ∧
    parseM17 (List.replicate 53 0) = none ∧
    (parseM17 (List.replicate 54 0)).isSome = true := by
  refine ⟨?_, ?_, ?_, ?_⟩
  · intro p h
    rw [parseM17, if_pos h]
  · intro p h
    rw [parseM17, if_neg (by omega)]
    exact ⟨_, rfl⟩
  · rw [parseM17, if_pos (by decide)]
  · rw [parseM17, if_neg (by decide)]
    rfl

/-- Witness for C4 at the concrete lengths 53 and 54. -/
theorem c4_min_frame_length_witness :
    (List.replicate 53 (0 : Nat)).length < 54 ∧
    parseM17 (List.replicate 53 0) = none ∧
    54 ≤ (List.replicate 54 (0 : Nat)).length ∧
    ∃ f, parseM17 (List.replicate 54 0) = some f :=
  ⟨by decide, c4_min_frame_length.1 (List.replicate 53 0) (by decide),
   by decide, c4_min_frame_length.2.1 (List.replicate 54 0) (by decide)⟩

/-! ### The receive loop's peer-address filter (`listen`, tui.go client) -/

/-- A UDP peer address: IP bytes and port, as compared by
`addr.IP.Equal(c.relayAddr.IP)` and `addr.Port != c.relayAddr.Port`. -/
structure UDPAddr where
  ip : List Nat
  port : Nat
deriving DecidableEq

/-- What one receive-loop iteration does with a datagram once read. -/
inductive RecvAction where
  /-- The unknown-source branch: log and `continue`, no dispatch. -/
  | dropLogged (src : UDPAddr)
  /-- `c.handlePacket(buf[:n])` is invoked on the datagram. -/
  | handled (pkt : List Nat)
deriving DecidableEq

/-- The body of `listen` (tui.go client) after a successful read: if the
source IP or port differs from the bound relay peer, log and drop;
otherwise hand the datagram to `handlePacket`. -/
def listenStep (relayAddr src : UDPAddr) (pkt : List Nat) : RecvAction :=
  if ¬(src.ip = relayAddr.ip) ∨ src.port ≠ relayAddr.port then .dropLogged src
  else .handled pkt

/-- C7: the packet handler is invoked on a received datagram exactly when
the source matches the bound relay peer's IP and port; any other source is
logged and dropped with no dispatch. -/
theorem c7_address_filter :
    ∀ (relayAddr src : UDPAddr) (pkt : List Nat),
      (listenStep relayAddr src pkt = .handled pkt ↔
        src.ip = relayAddr.ip ∧ src.port = relayAddr.port) ∧
      (¬(src.ip = relayAddr.ip ∧ src.port = relayAddr.port) →
        listenStep relayAddr src pkt = .dropLogged src) := by
  intro relayAddr src pkt
  constructor
  · rw [listenStep]
    split_ifs with h
    · constructor
      · intro hcon
        exact absurd hcon (by simp)
      · intro hcond
        exact absurd hcond (by tauto)
    · constructor
      · intro _
        push_neg at h
        exact h
      · intro _
        rfl
  · intro hne
    rw [listenStep, if_pos (by tauto)]

/-- Witness for C7: a packet from a foreign source is dropped, one from the
bound peer is handled. -/
theorem c7_address_filter_witness :
    ¬((⟨[10, 0, 0, 2], 17000⟩ : UDPAddr).ip = (⟨[10, 0, 0, 1], 17000⟩ : UDPAddr).ip ∧
      (⟨[10, 0, 0, 2], 17000⟩ : UDPAddr).port = (⟨[10, 0, 0, 1], 17000⟩ : UDPAddr).port) ∧
    listenStep ⟨[10, 0, 0, 1], 17000⟩ ⟨[10, 0, 0, 2], 17000⟩ [80, 73, 78, 71]
      = .dropLogged ⟨[10, 0, 0, 2], 17000⟩ :=
  ⟨by decide,
    (c7_address_filter ⟨[10, 0, 0, 1], 17000⟩ ⟨[10, 0, 0, 2], 17000⟩ [80, 73, 78, 71]).2
      (by decide)⟩

/-! ### Control-packet dispatch, the one-shot DISC channel, and teardown -/

/-- The 4-byte magic tags, as byte lists (`LSTN`, `ACKN`, `NACK`, `PING`,
`PONG`, `DISC`, `"M17 "`). -/
def MagicLSTN : List Nat := [76, 83, 84, 78]

def MagicACKN : List Nat := [65, 67, 75, 78]

def MagicNACK : List Nat := [78, 65, 67, 75]

def MagicPING : List Nat := [80, 73, 78, 71]

def MagicPONG : List Nat := [80, 79, 78, 71]

def MagicDISC : List Nat := [68, 73, 83, 67]

def MagicM17 : List Nat := [77, 49, 55, 32]

/-- The observable fate of the process after `handlePacket` runs: still
running with the disc channel open or closed, exited via `os.Exit`, or
panicked (Go's `close` of an already-closed channel panics). -/
inductive Outcome where
  | running (discClosed : Bool)
  | exited (code : Nat)
  | panicked
deriving DecidableEq

/-- `handleDISC`: `close(c.discChan)` with no guard — closing an
already-closed channel is a runtime panic. -/
def handleDISC (discClosed : Bool) : Outcome :=
  if discClosed then .panicked else .running true

/-- `handleNACK`: send DISC, cancel, close the connection and player, then
`os.Exit(1)`. -/
def handleNACKOutcome : Outcome := .exited 1

/-- `handlePacket`: packets shorter than 4 bytes are ignored; otherwise the
first four bytes select the handler; `PING`, `ACKN` and `M17 ` leave the
disc channel untouched, `NACK` exits the process, `DISC` closes the
channel, and unknown magics are ignored. -/
def handlePacket (discClosed : Bool) (packet : List Nat) : Outcome :=
  if packet.length < 4 then .running discClosed
  else if packet.take 4 = MagicPING then .running discClosed
  else if packet.take 4 = MagicACKN then .running discClosed
  else if packet.take 4 = MagicNACK then handleNACKOutcome
  else if packet.take 4 = MagicDISC then handleDISC discClosed
  else if packet.take 4 = MagicM17 then .running discClosed
  else .running discClosed

/-- The receive loop, fed a sequence of already-address-filtered datagrams:
each is dispatched in turn for as long as the process is running. -/
def runPackets (discClosed : Bool) : List (List Nat) → Outcome
  | [] => .running discClosed
  | pkt :: rest =>
    match handlePacket discClosed pkt with
    | .running st => runPackets st rest
    | o => o

/-- Whether a datagram is a DISC control packet. -/
def isDISCPacket (pkt : List Nat) : Bool := pkt.take 4 == MagicDISC

/-- Whether a datagram is a NACK control packet. -/
def isNACKPacket (pkt : List Nat) : Bool := pkt.take 4 == MagicNACK

theorem take4_length_ge {pkt : List Nat} {m : List Nat} (hm : m.length = 4)
    (h : pkt.take 4 = m) : ¬pkt.length < 4 := by
  intro hlt
  have := congrArg List.length h
  rw [List.length_take, hm] at this
  omega

theorem runPackets_panics (pkts : List (List Nat)) :
    ∀ discClosed : Bool,
      (∀ p ∈ pkts, isNACKPacket p = false) →
      (if discClosed then 1 else 2) ≤ pkts.countP isDISCPacket →
      runPackets discClosed pkts = .panicked := by
  induction pkts with
  | nil =>
    intro discClosed _ hcount
    rw [List.countP_nil] at hcount
    cases discClosed <;> simp at hcount
  | cons pkt rest ih =>
    intro discClosed hnack hcount
    have hnackp : isNACKPacket pkt = false := hnack pkt (List.mem_cons_self pkt rest)
    have hnackr : ∀ p ∈ rest, isNACKPacket p = false :=
      fun p hp => hnack p (List.mem_cons_of_mem pkt hp)
    have htakeN : pkt.take 4 ≠ MagicNACK := by
      simpa [isNACKPacket] using hnackp
    rw [List.countP_cons] at hcount
    by_cases hdisc : isDISCPacket pkt = true
    · have htake : pkt.take 4 = MagicDISC := by
        simpa [isDISCPacket] using hdisc
      have hstep : handlePacket discClosed pkt = handleDISC discClosed := by
        rw [handlePacket, if_neg (take4_length_ge (by decide) htake), htake]
        norm_num [MagicPING, MagicACKN, MagicNACK, MagicDISC]
      cases discClosed with
      | true =>
        rw [runPackets, hstep]
        rfl
      | false =>
        rw [runPackets, hstep]
        show runPackets true rest = .panicked
        apply ih true hnackr
        have h2 : 2 ≤ rest.countP isDISCPacket + 1 := by
          simpa [hdisc] using hcount
        simpa using (by omega : 1 ≤ rest.countP isDISCPacket)
    · have htake : pkt.take 4 ≠ MagicDISC := by
        simpa [isDISCPacket] using hdisc
      have hstep : handlePacket discClosed pkt = .running discClosed := by
        rw [handlePacket]
        by_cases hlen : pkt.length < 4
        · rw [if_pos hlen]
        · rw [if_neg hlen]
          by_cases hping : pkt.take 4 = MagicPING
          · rw [if_pos hping]
          · rw [if_neg hping]
            by_cases hackn : pkt.take 4 = MagicACKN
            · rw [if_pos hackn]
            · rw [if_neg hackn, if_neg htakeN, if_neg htake]
              by_cases hm17 : pkt.take 4 = MagicM17
              · rw [if_pos hm17]
              · rw [if_neg hm17]
      rw [runPackets, hstep]
      show runPackets discClosed rest = .panicked
      apply ih discClosed hnackr
      have hd0 : isDISCPacket pkt = false := by
        simpa using hdisc
      rw [hd0] at hcount
      cases discClosed with
      | false =>
        have h1 : 2 ≤ rest.countP isDISCPacket := by
          simpa using hcount
        simpa using h1
      | true =>
        have h1 : 1 ≤ rest.countP isDISCPacket := by
          simpa using hcount
        simpa using h1

/-- C10: `handleDISC` closes the one-shot channel unconditionally — it
fires the signal when the channel is open, and panics (close of a closed
channel) when it is already closed; consequently any address-filtered
datagram sequence containing two DISC packets and no NACK (which would exit
the process first) drives the receive loop into a runtime panic from the
initial open-channel state. -/
theorem c10_double_disc_panics :
    handleDISC false = .running true ∧
    handleDISC true = .panicked ∧
    (∀ pkts : List (List Nat),
      (∀ p ∈ pkts, isNACKPacket p = false) →
      2 ≤ pkts.countP isDISCPacket →
      runPackets false pkts = .panicked) := by
  refine ⟨rfl, rfl, ?_⟩
  intro pkts hnack hcount
  exact runPackets_panics pkts false hnack (by simpa using hcount)

/-- Witness for C10 at the concrete sequence of two DISC datagrams. -/
theorem c10_double_disc_panics_witness :
    (∀ p ∈ ([MagicDISC, MagicDISC] : List (List Nat)), isNACKPacket p = false) ∧
    2 ≤ ([MagicDISC, MagicDISC] : List (List Nat)).countP isDISCPacket ∧
    runPackets false [MagicDISC, MagicDISC] = .panicked :=
  ⟨by decide, by decide,
    c10_double_disc_panics.2.2 [MagicDISC, MagicDISC] (by decide) (by decide)⟩

/-! ### Teardown paths: NACK rejection versus the bounded shutdown wait -/

/-- The externally observable actions of the teardown code paths. -/
inductive Act where
  | sendDisc
  | cancelCtx
  | closeConn
  | closePlayer
  | exitProc (code : Nat)
  | waitDisc (bound : Nat)
deriving DecidableEq

/-- `handleNACK` in order: `sendDISC()`, `cancel()`, `conn.Close()`,
`player.Close()`, `os.Exit(1)` — no wait of any kind. -/
def handleNACKActions : List Act :=
  [.sendDisc, .cancelCtx, .closeConn, .closePlayer, .exitProc 1]

/-- The shutdown path of `main` after the external trigger: `sendDISC()`,
`cancel()`, the `select` on `discChan` bounded by `time.After(5s)`, then
`conn.Close()` and `player.Close()` (normal process return). -/
def shutdownActions : List Act :=
  [.sendDisc, .cancelCtx, .waitDisc 5, .closeConn, .closePlayer]

/-- The teardown paths of an established session. -/
def teardownPaths : List (List Act) := [handleNACKActions, shutdownActions]

/-- C8: on NACK the client sends a disconnect, cancels the receive loop,
closes the transport and the audio sink and exits with the non-zero status
1, performing no bounded disconnect wait — and among the session teardown
paths it is the only one without that wait. -/
theorem c8_nack_teardown :
    handleNACKActions
        = [Act.sendDisc, Act.cancelCtx, Act.closeConn, Act.closePlayer, Act.exitProc 1] ∧
    (∀ b, Act.waitDisc b ∉ handleNACKActions) ∧
    Act.exitProc 1 ∈ handleNACKActions ∧ (1 : Nat) ≠ 0 ∧
    (∀ path ∈ teardownPaths,
      ((∀ b, Act.waitDisc b ∉ path) ↔ path = handleNACKActions)) := by
  refine ⟨rfl, ?_, by decide, by decide, ?_⟩
  · intro b
    simp [handleNACKActions]
  · intro path hpath
    rcases List.mem_cons.mp hpath with rfl | h2
    · constructor
      · intro _
        rfl
      · intro _ b
        simp [handleNACKActions]
    · rcases List.mem_cons.mp h2 with rfl | h3
      · constructor
        · intro hall
          exact absurd (by decide : Act.waitDisc 5 ∈ shutdownActions) (hall 5)
        · intro heq
          exact absurd heq (by decide)
      · cases h3

/-- Witness for C8: the normal shutdown path is a teardown path and does
contain the bounded wait, so it is not the NACK path. -/
theorem c8_nack_teardown_witness :
    shutdownActions ∈ teardownPaths ∧
    ((∀ b, Act.waitDisc b ∉ shutdownActions) ↔ shutdownActions = handleNACKActions) :=
  ⟨by decide, c8_nack_teardown.2.2.2.2 shutdownActions (by decide)⟩

/-! ### The timed shutdown sequence -/

/-- The absolute time at which the shutdown `select` completes, given the
trigger time and the (optional) absolute time at which the peer's DISC
fires the completion signal: the signal if it comes within the 5-second
bound (never earlier than the trigger), else the timeout at trigger+5. -/
def waitDeadline (trigger : Nat) (discAt : Option Nat) : Nat :=
  match discAt with
  | some u => if u ≤ trigger + 5 then max u trigger else trigger + 5
  | none => trigger + 5

/-- Whether the `time.After(5s)` branch of the `select` was the one taken;
the source logs and then proceeds identically in both branches. -/
def waitTimedOut (trigger : Nat) (discAt : Option Nat) : Bool :=
  match discAt with
  | some u => decide (trigger + 5 < u)
  | none => true

/-- The timed trace of the shutdown path: disconnect and cancellation at
the trigger, resource release when the wait completes. -/
def timedShutdown (trigger : Nat) (discAt : Option Nat) : List (Nat × Act) :=
  [(trigger, .sendDisc), (trigger, .cancelCtx),
   (waitDeadline trigger discAt, .closeConn),
   (waitDeadline trigger discAt, .closePlayer)]

/-- C9: after the external shutdown trigger the client sends the
disconnect, cancels the receive loop and waits at most 5 seconds for the
completion signal; the same release actions follow on signal or on timeout
(no error action distinguishes the timeout), every step happens between the
trigger and trigger+5, and with a peer that never replies the session
closes exactly at trigger+5 — at, not before, the 5-second bound. -/
theorem c9_bounded_shutdown :
    ∀ (trigger : Nat) (discAt : Option Nat),
      (timedShutdown trigger discAt).map Prod.snd
          = [Act.sendDisc, Act.cancelCtx, Act.closeConn, Act.closePlayer] ∧
      (∀ t a, (t, a) ∈ timedShutdown trigger discAt →
        trigger ≤ t ∧ t ≤ trigger + 5) ∧
      (discAt = none →
        waitTimedOut trigger discAt = true ∧
        waitDeadline trigger discAt = trigger + 5 ∧
        ¬waitDeadline trigger discAt < trigger + 5) := by
  intro trigger discAt
  have hd : trigger ≤ waitDeadline trigger discAt ∧
      waitDeadline trigger discAt ≤ trigger + 5 := by
    cases discAt with
    | none => simp [waitDeadline]
    | some u =>
      rw [waitDeadline]
      split_ifs with h
      · exact ⟨le_max_right u trigger, max_le h (by omega)⟩
      · omega
  refine ⟨rfl, ?_, ?_⟩
  · intro t a hmem
    simp only [timedShutdown, List.mem_cons, List.not_mem_nil, or_false] at hmem
    rcases hmem with h | h | h | h
    · injection h with h1 _
      omega
    · injection h with h1 _
      omega
    · injection h with h1 _
      omega
    · injection h with h1 _
      omega
  · intro hnone
    subst hnone
    refine ⟨rfl, rfl, ?_⟩
    show ¬trigger + 5 < trigger + 5
    omega

/-- Witness for C9 at trigger time 0 with a peer that never replies. -/
theorem c9_bounded_shutdown_witness :
    (timedShutdown 0 none).map Prod.snd
        = [Act.sendDisc, Act.cancelCtx, Act.closeConn, Act.closePlayer] ∧
    waitDeadline 0 none = 5 ∧ waitTimedOut 0 none = true :=
  ⟨(c9_bounded_shutdown 0 none).1,
   ((c9_bounded_shutdown 0 none).2.2 rfl).2.1,
   ((c9_bounded_shutdown 0 none).2.2 rfl).1⟩
